import Mathlib

/-!
Verification of the smart-file-organizer program (`organizer.py`).

The program is embedded shallowly:
* pure helpers (`get_category`, `is_hidden_or_system`, `resolve_duplicate`)
  become Lean functions over `String`;
* the file system visible to one run is made explicit: the base directory is
  a list of `Entry` (name and directory flag, the snapshot `os.listdir`
  iterates over), and the contents of each category folder is a function
  `String → List String`;
* the move loop `organize_files` threads that state and a failure oracle
  `fails : String → Bool` standing for `shutil.move` raising
  `PermissionError`/`OSError` on the given entry;
* `validate_path` and `main` are modelled over an abstract path environment.
-/

namespace Organizer

/-- The extension → category table of `organizer.py` (`EXTENSION_MAP`),
as an association list in source order. -/
def EXTENSION_MAP : List (String × String) := [
  (".jpg", "Images"),
  (".jpeg", "Images"),
  (".png", "Images"),
  (".gif", "Images"),
  (".bmp", "Images"),
  (".svg", "Images"),
  (".webp", "Images"),
  (".ico", "Images"),
  (".tiff", "Images"),
  (".heic", "Images"),
  (".mp4", "Videos"),
  (".avi", "Videos"),
  (".mkv", "Videos"),
  (".mov", "Videos"),
  (".wmv", "Videos"),
  (".flv", "Videos"),
  (".webm", "Videos"),
  (".pdf", "PDFs"),
  (".doc", "Documents"),
  (".docx", "Documents"),
  (".txt", "Documents"),
  (".rtf", "Documents"),
  (".odt", "Documents"),
  (".xls", "Documents"),
  (".xlsx", "Documents"),
  (".ppt", "Documents"),
  (".pptx", "Documents"),
  (".csv", "Documents"),
  (".py", "Code"),
  (".js", "Code"),
  (".ts", "Code"),
  (".html", "Code"),
  (".css", "Code"),
  (".java", "Code"),
  (".c", "Code"),
  (".cpp", "Code"),
  (".h", "Code"),
  (".rb", "Code"),
  (".go", "Code"),
  (".rs", "Code"),
  (".php", "Code"),
  (".swift", "Code"),
  (".kt", "Code"),
  (".sh", "Code"),
  (".json", "Code"),
  (".xml", "Code"),
  (".yaml", "Code"),
  (".yml", "Code"),
  (".sql", "Code"),
  (".md", "Code")]

/-- The ordered category list of `organizer.py` (`CATEGORIES`). -/
def CATEGORIES : List String :=
  ["Images", "Videos", "PDFs", "Documents", "Code", "Others"]

/-- Index of the last occurrence of `c` in `l` (Python `str.rfind`,
with `none` for "not found"). -/
def rfind? (c : Char) : List Char → Option Nat
  | [] => none
  | a :: as =>
    match rfind? c as with
    | some i => some (i + 1)
    | none => if a == c then some 0 else none

/-- `os.path.splitext` (posix): the extension starts at the last dot that
lies after the last path separator, provided at least one earlier character
of the base name is not a dot (leading dots belong to the stem, so dotfiles
such as `.py` have no extension). -/
def splitext (p : String) : String × String :=
  let l := p.data
  match rfind? '.' l with
  | none => (p, "")
  | some d =>
    let start :=
      match rfind? '/' l with
      | none => 0
      | some s => s + 1
    if start ≤ d ∧ (((l.drop start).take (d - start)).any fun c => c != '.') = true then
      (⟨l.take d⟩, ⟨l.drop d⟩)
    else
      (p, "")

/-- Python `str.lower` restricted to the ASCII range actually used by the
extension table. -/
def lowerStr (s : String) : String := ⟨s.data.map Char.toLower⟩

/-- `get_category`: look the lower-cased extension up in `EXTENSION_MAP`,
falling back to `"Others"`. -/
def get_category (filename : String) : String :=
  ((EXTENSION_MAP.lookup (lowerStr (splitext filename).2)).getD "Others")

/-- `is_hidden_or_system`: Python `filename.startswith(".")`. -/
def is_hidden_or_system (filename : String) : Bool :=
  match filename.data with
  | [] => false
  | c :: _ => c == '.'

/-- Decimal digits of `n`, most significant first, by fuel-bounded division
(`fuel ≥ n` is always enough since `n / 10 < n` for `n ≠ 0`). -/
def toDecimalAux : Nat → Nat → List Char
  | 0, _ => []
  | fuel + 1, n =>
    if n = 0 then [] else toDecimalAux fuel (n / 10) ++ [Nat.digitChar (n % 10)]

/-- Decimal rendering of a natural number: Python `f"{counter}"`. -/
def natRepr (n : Nat) : String :=
  if n = 0 then "0" else ⟨toDecimalAux n n⟩

/-- The `counter`-th probe name built by `resolve_duplicate`:
`f"{name}_{counter}{ext}"`. -/
def candidate (name ext : String) (k : Nat) : String :=
  name ++ "_" ++ natRepr k ++ ext

/-- The `while os.path.exists(dest)` probe loop of `resolve_duplicate`:
return the first counter `≥ k` whose candidate name is not among the
destination folder's current entries.  The loop in the source is unbounded;
here it carries fuel, and `candidate_exists_within` below proves that the
fuel `resolve_name` passes is always sufficient. -/
def findFreeAux (contents : List String) (name ext : String) : Nat → Nat → Nat
  | 0, k => k
  | fuel + 1, k =>
    if candidate name ext k ∈ contents then findFreeAux contents name ext fuel (k + 1)
    else k

/-- `os.path.join` for the simple directory/name case used by the program. -/
def joinPath (dir name : String) : String := dir ++ "/" ++ name

/-- The name `resolve_duplicate` picks inside the destination folder, given
the folder's current entry names.  `filename` absent: the name itself.
Otherwise: the first free `name_k.ext` with `k` counting up from 1. -/
def resolve_name (contents : List String) (filename : String) : String :=
  if filename ∈ contents then
    let ne := splitext filename
    candidate ne.1 ne.2 (findFreeAux contents ne.1 ne.2 (contents.length + 1) 1)
  else filename

/-- `resolve_duplicate(destination_folder, filename)`: the unique destination
path, as folder path joined with the resolved name. -/
def resolve_duplicate (contents : List String) (destination_folder filename : String) :
    String :=
  joinPath destination_folder (resolve_name contents filename)

/-- One entry of the `os.listdir` snapshot: a name plus whether
`os.path.isdir` holds for it. -/
structure Entry where
  name : String
  isDir : Bool
deriving DecidableEq

/-- `summary[category] += 1` on the summary dict (total-function model,
zero outside the real key set). -/
def incr (s : String → Nat) (c : String) : String → Nat :=
  fun x => if x = c then s x + 1 else s x

/-- Record that the moved file now sits in category folder `c` under the
name `dest`. -/
def updateFolder (f : String → List String) (c dest : String) :
    String → List String :=
  fun x => if x = c then dest :: f x else f x

/-- Result of one run of `organize_files`: the summary dict, the entries
still in the base directory, the category folders' contents, and the
per-entry failure reports that were printed. -/
structure RunResult where
  summary : String → Nat
  remaining : List Entry
  folders : String → List String
  reports : List String

/-- The `for entry in os.listdir(base_path)` loop of `organize_files`:
skip directories, skip hidden entries, classify, resolve the destination
name against the live folder contents, then either move (count it, update
the folder) or, when `shutil.move` raises (`fails`), report and leave the
entry in place. -/
def runOrganize (fails : String → Bool) :
    List Entry → (String → List String) → (String → Nat) → RunResult
  | [], folders, summary => ⟨summary, [], folders, []⟩
  | e :: rest, folders, summary =>
    if e.isDir then
      let r := runOrganize fails rest folders summary
      { r with remaining := e :: r.remaining }
    else if is_hidden_or_system e.name then
      let r := runOrganize fails rest folders summary
      { r with remaining := e :: r.remaining }
    else
      let category := get_category e.name
      let dest := resolve_name (folders category) e.name
      if fails e.name then
        let r := runOrganize fails rest folders summary
        { r with remaining := e :: r.remaining, reports := e.name :: r.reports }
      else
        runOrganize fails rest (updateFolder folders category dest) (incr summary category)

/-- `organize_files(base_path)`: run the loop over the snapshot with the
summary initialised to zero for every category. -/
def organize_files (fails : String → Bool) (folders : String → List String)
    (base : List Entry) : RunResult :=
  runOrganize fails base folders (fun _ => 0)

/-- `total = sum(summary.values())`: the dict's keys are exactly
`CATEGORIES`. -/
def summaryTotal (s : String → Nat) : Nat := (CATEGORIES.map s).sum

/-- What `print_summary` renders: the "already clean" notice, or the table
of non-zero rows plus the total row. -/
inductive Report where
  | alreadyClean
  | table (rows : List (String × Nat)) (total : Nat)
deriving DecidableEq

/-- `print_summary`: the clean notice when the total is zero, otherwise the
rows with positive counts in category order and the total. -/
def print_summary (s : String → Nat) : Report :=
  if summaryTotal s = 0 then Report.alreadyClean
  else Report.table ((CATEGORIES.filter fun c => 0 < s c).map fun c => (c, s c))
    (summaryTotal s)

/-- What the host reports about one absolute path: `os.path.exists`,
`os.path.isdir`, and `os.access(..., R_OK | W_OK)`. -/
structure PathInfo where
  present : Bool
  isDir : Bool
  readWrite : Bool

/-- Outcome of `validate_path`: the resolved path, or the error it prints
before `sys.exit(1)`. -/
inductive ValidateResult where
  | ok (absPath : String)
  | notFound
  | notADirectory
  | insufficientPermissions
deriving DecidableEq

/-- `validate_path(path)` over an abstract host: resolve with
`os.path.abspath`, then check existence, directoriness and permissions in
source order. -/
def validate_path (abspath : String → String) (info : String → PathInfo)
    (path : String) : ValidateResult :=
  let a := abspath path
  if !(info a).present then ValidateResult.notFound
  else if !(info a).isDir then ValidateResult.notADirectory
  else if !(info a).readWrite then ValidateResult.insufficientPermissions
  else ValidateResult.ok a

/-- Everything `main` observes: `len(sys.argv)`, the target argument, the
host path functions, the base-directory snapshot, the category folders'
contents (after `create_category_folders`, which only ensures the folders
exist and never changes their contents), and the move-failure oracle. -/
structure Env where
  argc : Nat
  target : String
  abspath : String → String
  info : String → PathInfo
  folders : String → List String
  entries : List Entry
  moveFails : String → Bool

/-- `main()`: exit status 1 on wrong argument count or validation failure;
otherwise organize and exit 0, whatever the per-entry move failures were. -/
def main (env : Env) : Nat × Option RunResult :=
  if env.argc ≠ 2 then (1, none)
  else
    match validate_path env.abspath env.info env.target with
    | ValidateResult.ok _ => (0, some (organize_files env.moveFails env.folders env.entries))
    | _ => (1, none)

/-- The entry is a non-directory, non-hidden file whose move raised: it was
reported and left in place. -/
def entryFailed (fails : String → Bool) (e : Entry) : Bool :=
  !e.isDir && !is_hidden_or_system e.name && fails e.name

/-- The entry is a non-directory, non-hidden file whose move succeeded. -/
def entryMoved (fails : String → Bool) (e : Entry) : Bool :=
  !e.isDir && !is_hidden_or_system e.name && !fails e.name

/-- The entry is a hidden (dot-named) file, skipped by the loop. -/
def entryHidden (e : Entry) : Bool :=
  !e.isDir && is_hidden_or_system e.name

/-- The extension exactly as the spec sentence words it, for comparison with
the code: "the substring from the last `.` to the end", with no exception
for leading dots. -/
def extensionByLastDot (filename : String) : String :=
  match rfind? '.' filename.data with
  | none => ""
  | some d => ⟨filename.data.drop d⟩

/-- Classification as the spec sentence describes it: look up the
substring-from-last-dot extension, lower-cased, falling back to
`"Others"`. -/
def get_category_claimed (filename : String) : String :=
  ((EXTENSION_MAP.lookup (lowerStr (extensionByLastDot filename))).getD "Others")

/-- Classification as the code actually extracts the extension: the
substring from the last `.` counts as extension only when some character
before that dot is not itself a dot; otherwise (no dot, or an all-dots
prefix as in dotfiles) the extension is empty and the fallback applies. -/
def get_category_described (filename : String) : String :=
  match rfind? '.' filename.data with
  | none => "Others"
  | some d =>
    if (filename.data.take d).any (fun c => c != '.') then
      ((EXTENSION_MAP.lookup (lowerStr ⟨filename.data.drop d⟩)).getD "Others")
    else "Others"

/-! ### Classification lemmas -/

/-- A lookup-with-default lands in `CATEGORIES` whenever every value of the
table does and so does the default. -/
lemma lookup_getD_mem (l : List (String × String))
    (h : ∀ p ∈ l, p.2 ∈ CATEGORIES) (x : String) :
    ((l.lookup x).getD "Others") ∈ CATEGORIES := by
  induction l with
  | nil => simp [List.lookup]; decide
  | cons p t ih =>
    obtain ⟨k, v⟩ := p
    rw [List.lookup]
    by_cases hx : x == k
    · simpa [hx] using h (k, v) (List.mem_cons_self _ _)
    · rw [Bool.not_eq_true] at hx
      simpa [hx] using ih fun q hq => h q (List.mem_cons_of_mem _ hq)

/-- Every value of the extension table is a category. -/
lemma extension_map_values : ∀ p ∈ EXTENSION_MAP, p.2 ∈ CATEGORIES := by decide

/-- `get_category` always lands in `CATEGORIES`. -/
lemma get_category_mem (filename : String) : get_category filename ∈ CATEGORIES :=
  lookup_getD_mem EXTENSION_MAP extension_map_values _

/-! ### Decimal rendering -/

/-- With enough fuel, `toDecimalAux` is the reversed decimal digit list. -/
lemma toDecimalAux_eq (fuel : Nat) :
    ∀ n, n ≤ fuel → toDecimalAux fuel n = ((Nat.digits 10 n).map Nat.digitChar).reverse := by
  induction fuel with
  | zero =>
    intro n hn
    obtain rfl : n = 0 := Nat.le_zero.mp hn
    simp [toDecimalAux]
  | succ fuel ih =>
    intro n hn
    by_cases hz : n = 0
    · subst hz; simp [toDecimalAux]
    · have hdiv : n / 10 ≤ fuel := by
        have := Nat.div_lt_self (Nat.pos_of_ne_zero hz) (by norm_num : (1:Nat) < 10)
        omega
      rw [toDecimalAux, if_neg hz,
        Nat.digits_def' (by norm_num : (1:Nat) < 10) (Nat.pos_of_ne_zero hz),
        List.map_cons, List.reverse_cons, ih (n / 10) hdiv]

/-- `Nat.digitChar` is injective below 10. -/
lemma digitChar_inj_lt : ∀ a, a < 10 → ∀ b, b < 10 →
    Nat.digitChar a = Nat.digitChar b → a = b := by decide

/-- Mapping `Nat.digitChar` over digit lists (entries `< 10`) is injective. -/
lemma map_digitChar_inj : ∀ (l₁ l₂ : List Nat), (∀ a ∈ l₁, a < 10) →
    (∀ a ∈ l₂, a < 10) → l₁.map Nat.digitChar = l₂.map Nat.digitChar → l₁ = l₂ := by
  intro l₁
  induction l₁ with
  | nil =>
    intro l₂ _ _ h
    cases l₂ with
    | nil => rfl
    | cons b t => simp at h
  | cons a t ih =>
    intro l₂ h₁ h₂ h
    cases l₂ with
    | nil => simp at h
    | cons b t₂ =>
      simp only [List.map_cons, List.cons.injEq] at h
      have hab : a = b :=
        digitChar_inj_lt a (h₁ a (List.mem_cons_self _ _)) b
          (h₂ b (List.mem_cons_self _ _)) h.1
      have ht : t = t₂ :=
        ih t₂ (fun x hx => h₁ x (List.mem_cons_of_mem _ hx))
          (fun x hx => h₂ x (List.mem_cons_of_mem _ hx)) h.2
      rw [hab, ht]

/-- The decimal rendering of a counter is injective. -/
lemma natRepr_inj : ∀ m n : Nat, natRepr m = natRepr n → m = n := by
  have key : ∀ n : Nat, n ≠ 0 →
      (natRepr n).data = ((Nat.digits 10 n).map Nat.digitChar).reverse := by
    intro n hn
    rw [natRepr, if_neg hn, toDecimalAux_eq n n (le_refl n)]
  have nonzero : ∀ n : Nat, n ≠ 0 → natRepr n ≠ "0" := by
    intro n hn hcon
    have hd := congrArg String.data hcon
    rw [key n hn] at hd
    have : (Nat.digits 10 n).map Nat.digitChar = ['0'] := by
      have := congrArg List.reverse hd
      simpa using this
    obtain ⟨d, hdig, hchar⟩ : ∃ d, Nat.digits 10 n = [d] ∧ Nat.digitChar d = '0' := by
      rcases hdd : Nat.digits 10 n with _ | ⟨d, ds⟩
      · rw [hdd] at this; simp at this
      · rw [hdd] at this
        simp only [List.map_cons, List.cons.injEq] at this
        have hds : ds = [] := by
          cases ds with
          | nil => rfl
          | cons x xs => simp at this
        exact ⟨d, by rw [hds], this.1⟩
    have hlt : d < 10 :=
      Nat.digits_lt_base (by norm_num) (hdig ▸ List.mem_singleton_self d)
    have hd0 : d = 0 := by
      have hgen : ∀ x, x < 10 → Nat.digitChar x = '0' → x = 0 := by decide
      exact hgen d hlt hchar
    have := Nat.ofDigits_digits 10 n
    rw [hdig, hd0] at this
    simp [Nat.ofDigits] at this
    exact hn this.symm
  intro m n h
  by_cases hm : m = 0
  · by_cases hn : n = 0
    · rw [hm, hn]
    · subst hm; exact absurd h.symm (nonzero n hn)
  · by_cases hn : n = 0
    · subst hn; exact absurd h (nonzero m hm)
    · have hd := congrArg String.data h
      rw [key m hm, key n hn] at hd
      have hmap := List.reverse_injective hd
      have := map_digitChar_inj _ _
        (fun a ha => Nat.digits_lt_base (by norm_num) ha)
        (fun a ha => Nat.digits_lt_base (by norm_num) ha) hmap
      have := congrArg (Nat.ofDigits 10) this
      rwa [Nat.ofDigits_digits, Nat.ofDigits_digits] at this

/-! ### Duplicate resolution -/

/-- String append concatenates the underlying character lists. -/
lemma data_append (a b : String) : (a ++ b).data = a.data ++ b.data := rfl

/-- Two distinct counters give distinct probe names. -/
lemma candidate_inj (name ext : String) (j k : Nat)
    (h : candidate name ext j = candidate name ext k) : j = k := by
  have hd := congrArg String.data h
  rw [candidate, candidate, data_append, data_append, data_append, data_append] at hd
  have h₁ := List.append_cancel_right hd
  have h₂ := List.append_cancel_left h₁
  exact natRepr_inj j k (String.ext h₂)

/-- Pigeonhole: among the first `contents.length + 1` probe names, at least
one is not an entry of the destination folder. -/
lemma exists_candidate_not_mem (contents : List String) (name ext : String) :
    ∃ j, j < contents.length + 1 ∧ candidate name ext (1 + j) ∉ contents := by
  by_contra hc
  push_neg at hc
  have hmaps : ∀ a ∈ (Finset.univ : Finset (Fin (contents.length + 1))),
      candidate name ext (1 + a.1) ∈ contents.toFinset :=
    fun a _ => List.mem_toFinset.mpr (hc a.1 a.2)
  have hinj : Set.InjOn (fun i : Fin (contents.length + 1) => candidate name ext (1 + i.1))
      ↑(Finset.univ : Finset (Fin (contents.length + 1))) := by
    intro a _ b _ hab
    have := candidate_inj name ext _ _ hab
    exact Fin.ext (by omega)
  have hcard := Finset.card_le_card_of_injOn _ hmaps hinj
  rw [Finset.card_univ, Fintype.card_fin] at hcard
  have := List.toFinset_card_le contents
  omega

/-- The fuelled probe loop, given that a free candidate is within reach,
returns the least free counter at or above its start. -/
lemma findFreeAux_spec (contents : List String) (name ext : String) :
    ∀ fuel k, (∃ j, j < fuel ∧ candidate name ext (k + j) ∉ contents) →
      candidate name ext (findFreeAux contents name ext fuel k) ∉ contents ∧
      k ≤ findFreeAux contents name ext fuel k ∧
      ∀ j, k ≤ j → j < findFreeAux contents name ext fuel k →
        candidate name ext j ∈ contents := by
  intro fuel
  induction fuel with
  | zero =>
    rintro k ⟨j, hj, _⟩
    omega
  | succ fuel ih =>
    rintro k ⟨j, hj, hfree⟩
    rw [findFreeAux]
    by_cases hmem : candidate name ext k ∈ contents
    · rw [if_pos hmem]
      have hj0 : j ≠ 0 := by
        rintro rfl
        exact hfree (by simpa using hmem)
      have hnext : ∃ j', j' < fuel ∧ candidate name ext ((k + 1) + j') ∉ contents := by
        refine ⟨j - 1, by omega, ?_⟩
        have : (k + 1) + (j - 1) = k + j := by omega
        rwa [this]
      obtain ⟨h₁, h₂, h₃⟩ := ih (k + 1) hnext
      refine ⟨h₁, by omega, fun i hki hilt => ?_⟩
      by_cases hik : i = k
      · rwa [hik]
      · exact h₃ i (by omega) hilt
    · rw [if_neg hmem]
      exact ⟨hmem, le_refl k, fun i h₁ h₂ => absurd (lt_of_le_of_lt h₁ h₂) (lt_irrefl k)⟩

/-- Characterization of `resolve_name` when the filename collides: the
result is the first free probe name, counter starting at 1. -/
lemma resolve_name_mem (contents : List String) (filename : String)
    (h : filename ∈ contents) :
    ∃ k, 1 ≤ k ∧
      resolve_name contents filename =
        candidate (splitext filename).1 (splitext filename).2 k ∧
      candidate (splitext filename).1 (splitext filename).2 k ∉ contents ∧
      ∀ j, 1 ≤ j → j < k →
        candidate (splitext filename).1 (splitext filename).2 j ∈ contents := by
  obtain ⟨j, hj, hfree⟩ :=
    exists_candidate_not_mem contents (splitext filename).1 (splitext filename).2
  have hex : ∃ i, i < contents.length + 1 ∧
      candidate (splitext filename).1 (splitext filename).2 (1 + i) ∉ contents :=
    ⟨j, hj, hfree⟩
  obtain ⟨h₁, h₂, h₃⟩ :=
    findFreeAux_spec contents (splitext filename).1 (splitext filename).2
      (contents.length + 1) 1
      (by
        obtain ⟨i, hi, hf⟩ := hex
        exact ⟨i, hi, by simpa [Nat.add_comm] using hf⟩)
  refine ⟨findFreeAux contents (splitext filename).1 (splitext filename).2
      (contents.length + 1) 1, h₂, ?_, h₁, h₃⟩
  rw [resolve_name, if_pos h]

/-- `resolve_name` returns the filename unchanged when it does not collide. -/
lemma resolve_name_not_mem (contents : List String) (filename : String)
    (h : filename ∉ contents) : resolve_name contents filename = filename := by
  rw [resolve_name, if_neg h]

/-! ### The move loop -/

/-- Per-category characterization of the summary: each category's count is
its starting value plus the number of successfully moved entries classified
into it. -/
lemma runOrganize_summary_apply (fails : String → Bool) :
    ∀ (l : List Entry) (folders : String → List String) (s : String → Nat) (c : String),
      (runOrganize fails l folders s).summary c =
        s c + l.countP (fun e => entryMoved fails e && (get_category e.name == c)) := by
  intro l
  induction l with
  | nil => intro folders s c; simp [runOrganize]
  | cons e rest ih =>
    intro folders s c
    rw [runOrganize]
    cases hd : e.isDir with
    | true => simp [ih, List.countP_cons, entryMoved, hd]
    | false =>
      cases hh : is_hidden_or_system e.name with
      | true => simp [ih, List.countP_cons, entryMoved, hd, hh]
      | false =>
        cases hf : fails e.name with
        | true => simp [ih, List.countP_cons, entryMoved, hd, hh, hf]
        | false =>
          simp only [Bool.false_eq_true, if_false]
          rw [ih, List.countP_cons]
          simp only [entryMoved, hd, hh, hf, Bool.not_false, Bool.and_self,
            Bool.true_and, incr]
          by_cases hc : get_category e.name = c
          · simp [hc, Nat.add_comm, Nat.add_assoc, Nat.add_left_comm]
          · have hbeq : (get_category e.name == c) = false := by
              simpa using hc
            have hc' : ¬c = get_category e.name := fun h => hc h.symm
            simp [hc', hbeq]

/-- Bumping one key of a summary raises the sum over a duplicate-free key
list containing it by exactly one. -/
lemma map_incr_sum (s : String → Nat) (c : String) :
    ∀ L : List String, L.Nodup → c ∈ L →
      (L.map (incr s c)).sum = (L.map s).sum + 1 := by
  intro L
  induction L with
  | nil => intro _ hc; cases hc
  | cons a t ih =>
    intro hnodup hc
    rw [List.map_cons, List.map_cons, List.sum_cons, List.sum_cons]
    by_cases hac : a = c
    · subst hac
      have hna : a ∉ t := (List.nodup_cons.mp hnodup).1
      have : t.map (incr s a) = t.map s :=
        List.map_congr_left fun x hx => by
          have : x ≠ a := fun h => hna (h ▸ hx)
          simp [incr, this]
      rw [this]
      simp [incr]
      omega
    · have hct : c ∈ t := by
        rcases List.mem_cons.mp hc with h | h
        · exact absurd h.symm hac
        · exact h
      rw [ih (List.nodup_cons.mp hnodup).2 hct]
      have : incr s c a = s a := by simp [incr, hac]
      rw [this]
      omega

/-- Bumping a real category raises the summary total by one. -/
lemma summaryTotal_incr (s : String → Nat) (c : String) (h : c ∈ CATEGORIES) :
    summaryTotal (incr s c) = summaryTotal s + 1 :=
  map_incr_sum s c CATEGORIES (by decide) h

/-- The summary total after the loop is the starting total plus the number
of successfully moved entries. -/
lemma runOrganize_total (fails : String → Bool) :
    ∀ (l : List Entry) (folders : String → List String) (s : String → Nat),
      summaryTotal (runOrganize fails l folders s).summary =
        summaryTotal s + l.countP (entryMoved fails) := by
  intro l
  induction l with
  | nil => intro folders s; simp [runOrganize]
  | cons e rest ih =>
    intro folders s
    rw [runOrganize]
    by_cases hd : e.isDir
    · simp [hd, ih, List.countP_cons, entryMoved]
    · by_cases hh : is_hidden_or_system e.name
      · simp [hd, hh, ih, List.countP_cons, entryMoved]
      · by_cases hf : fails e.name
        · simp [hd, hh, hf, ih, List.countP_cons, entryMoved]
        · rw [if_neg (by simp [hd]), if_neg (by simp [hh]), if_neg (by simp [hf]), ih,
            summaryTotal_incr s _ (get_category_mem e.name), List.countP_cons]
          simp only [entryMoved, Bool.not_eq_true] at *
          simp [hd, hh, hf]
          omega

/-- Every non-directory entry is exactly one of: hidden, failed, moved. -/
lemma count_partition (fails : String → Bool) (l : List Entry) :
    l.countP (entryMoved fails) + l.countP entryHidden + l.countP (entryFailed fails) =
      l.countP (fun e => !e.isDir) := by
  induction l with
  | nil => simp
  | cons e t ih =>
    simp only [List.countP_cons]
    cases hd : e.isDir <;> cases hh : is_hidden_or_system e.name <;>
      cases hf : fails e.name <;>
      simp [entryMoved, entryHidden, entryFailed, hd, hh, hf] <;> omega

/-- A file whose move raised is reported and left in the base directory. -/
lemma mem_remaining_of_failed (fails : String → Bool) :
    ∀ (l : List Entry) (folders : String → List String) (s : String → Nat) (e : Entry),
      e ∈ l → e.isDir = false → is_hidden_or_system e.name = false →
      fails e.name = true →
      e ∈ (runOrganize fails l folders s).remaining ∧
        e.name ∈ (runOrganize fails l folders s).reports := by
  intro l
  induction l with
  | nil => intro folders s e hmem; cases hmem
  | cons a rest ih =>
    intro folders s e hmem hd hh hf
    rw [runOrganize]
    rcases List.mem_cons.mp hmem with rfl | hmem'
    · rw [if_neg (by simp [hd]), if_neg (by simp [hh]), if_pos (by simp [hf])]
      exact ⟨List.mem_cons_self _ _, List.mem_cons_self _ _⟩
    · by_cases had : a.isDir
      · rw [if_pos (by simp [had])]
        obtain ⟨h₁, h₂⟩ := ih folders s e hmem' hd hh hf
        exact ⟨List.mem_cons_of_mem _ h₁, h₂⟩
      · by_cases hah : is_hidden_or_system a.name
        · rw [if_neg (by simp [had]), if_pos (by simp [hah])]
          obtain ⟨h₁, h₂⟩ := ih folders s e hmem' hd hh hf
          exact ⟨List.mem_cons_of_mem _ h₁, h₂⟩
        · by_cases haf : fails a.name
          · rw [if_neg (by simp [had]), if_neg (by simp [hah]), if_pos (by simp [haf])]
            obtain ⟨h₁, h₂⟩ := ih folders s e hmem' hd hh hf
            exact ⟨List.mem_cons_of_mem _ h₁, List.mem_cons_of_mem _ h₂⟩
          · rw [if_neg (by simp [had]), if_neg (by simp [hah]), if_neg (by simp [haf])]
            exact ih _ _ e hmem' hd hh hf

/-- A hidden entry is never moved out of the base directory. -/
lemma mem_remaining_of_hidden (fails : String → Bool) :
    ∀ (l : List Entry) (folders : String → List String) (s : String → Nat) (e : Entry),
      e ∈ l → is_hidden_or_system e.name = true →
      e ∈ (runOrganize fails l folders s).remaining := by
  intro l
  induction l with
  | nil => intro folders s e hmem; cases hmem
  | cons a rest ih =>
    intro folders s e hmem hh
    rw [runOrganize]
    rcases List.mem_cons.mp hmem with rfl | hmem'
    · by_cases hd : e.isDir
      · rw [if_pos (by simp [hd])]
        exact List.mem_cons_self _ _
      · rw [if_neg (by simp [hd]), if_pos (by simp [hh])]
        exact List.mem_cons_self _ _
    · by_cases had : a.isDir
      · rw [if_pos (by simp [had])]
        exact List.mem_cons_of_mem _ (ih folders s e hmem' hh)
      · by_cases hah : is_hidden_or_system a.name
        · rw [if_neg (by simp [had]), if_pos (by simp [hah])]
          exact List.mem_cons_of_mem _ (ih folders s e hmem' hh)
        · by_cases haf : fails a.name
          · rw [if_neg (by simp [had]), if_neg (by simp [hah]), if_pos (by simp [haf])]
            exact List.mem_cons_of_mem _ (ih folders s e hmem' hh)
          · rw [if_neg (by simp [had]), if_neg (by simp [hah]), if_neg (by simp [haf])]
            exact ih _ _ e hmem' hh

/-- Hidden entries contribute nothing: the summary is the one obtained on
the listing with the hidden entries removed. -/
lemma runOrganize_filter_hidden (fails : String → Bool) :
    ∀ (l : List Entry) (folders : String → List String) (s : String → Nat),
      (runOrganize fails (l.filter fun e => !is_hidden_or_system e.name) folders s).summary =
        (runOrganize fails l folders s).summary := by
  intro l
  induction l with
  | nil => intro folders s; rfl
  | cons e rest ih =>
    intro folders s
    cases hh : is_hidden_or_system e.name with
    | true =>
      rw [List.filter_cons_of_neg (by simp [hh])]
      conv_rhs => rw [runOrganize]
      cases hd : e.isDir with
      | true =>
        rw [if_pos (by simp [hd])]
        exact ih folders s
      | false =>
        rw [if_neg (by simp [hd]), if_pos (by simp [hh])]
        exact ih folders s
    | false =>
      rw [List.filter_cons_of_pos (by simp [hh])]
      cases hd : e.isDir with
      | true =>
        simp only [runOrganize, hd, if_true]
        exact ih folders s
      | false =>
        cases hf : fails e.name with
        | true =>
          simp [runOrganize, hd, hh, hf]
          exact ih folders s
        | false =>
          simp [runOrganize, hd, hh, hf]
          exact ih _ _

/-- If every entry of the listing is a directory or hidden, the loop leaves
the summary untouched. -/
lemma runOrganize_skip_all (fails : String → Bool) :
    ∀ (l : List Entry) (folders : String → List String) (s : String → Nat),
      (∀ e ∈ l, e.isDir = true ∨ is_hidden_or_system e.name = true) →
      (runOrganize fails l folders s).summary = s := by
  intro l
  induction l with
  | nil => intro folders s _; rfl
  | cons e rest ih =>
    intro folders s h
    rw [runOrganize]
    rcases h e (List.mem_cons_self _ _) with hd | hh
    · rw [if_pos (by simp [hd])]
      exact ih folders s fun x hx => h x (List.mem_cons_of_mem _ hx)
    · by_cases hd : e.isDir
      · rw [if_pos (by simp [hd])]
        exact ih folders s fun x hx => h x (List.mem_cons_of_mem _ hx)
      · rw [if_neg (by simp [hd]), if_pos (by simp [hh])]
        exact ih folders s fun x hx => h x (List.mem_cons_of_mem _ hx)

/-- When no move fails, each entry left in the base directory after the run
is a directory or hidden. -/
lemma remaining_all_skipped :
    ∀ (l : List Entry) (folders : String → List String) (s : String → Nat),
      ∀ e ∈ (runOrganize (fun _ => false) l folders s).remaining,
        e.isDir = true ∨ is_hidden_or_system e.name = true := by
  intro l
  induction l with
  | nil => intro folders s e hmem; cases hmem
  | cons a rest ih =>
    intro folders s e hmem
    rw [runOrganize] at hmem
    by_cases had : a.isDir
    · rw [if_pos (by simp [had])] at hmem
      rcases List.mem_cons.mp hmem with rfl | hmem'
      · exact Or.inl had
      · exact ih folders s e hmem'
    · by_cases hah : is_hidden_or_system a.name
      · rw [if_neg (by simp [had]), if_pos (by simp [hah])] at hmem
        rcases List.mem_cons.mp hmem with rfl | hmem'
        · exact Or.inr hah
        · exact ih folders s e hmem'
      · rw [if_neg (by simp [had]), if_neg (by simp [hah]), if_neg (by simp)] at hmem
        exact ih _ _ e hmem

/-! ### Extension-splitting lemmas -/

/-- `rfind?` misses exactly the absent characters. -/
lemma rfind?_eq_none (c : Char) (l : List Char) (h : c ∉ l) :
    rfind? c l = none := by
  induction l with
  | nil => rfl
  | cons a t ih =>
    rw [rfind?, ih fun hm => h (List.mem_cons_of_mem _ hm)]
    have hne : (a == c) = false := by
      simp only [beq_eq_false_iff_ne, ne_eq]
      exact fun heq => h (heq ▸ List.mem_cons_self _ _)
    simp [hne]

/-- A name without a dot splits into itself and the empty extension. -/
lemma splitext_no_dot (f : String) (h : rfind? '.' f.data = none) :
    splitext f = (f, "") := by
  rw [splitext]
  simp only [h]

/-- With a dot present and no separator, the split happens at the last dot
exactly when some character before it is not a dot. -/
lemma splitext_some (f : String) (d : Nat) (h : rfind? '.' f.data = some d)
    (hs : rfind? '/' f.data = none) :
    splitext f = if ((f.data.take d).any fun c => c != '.') = true
      then (⟨f.data.take d⟩, ⟨f.data.drop d⟩) else (f, "") := by
  rw [splitext]
  simp only [h, hs]
  simp [Nat.zero_le, Nat.sub_zero, List.drop_zero]

/-- A dotfile (leading dot, no second dot) has an empty extension. -/
lemma splitext_dotfile (f : String) (rest : List Char) (hdata : f.data = '.' :: rest)
    (hnd : '.' ∉ rest) : (splitext f).2 = "" := by
  have hdot : rfind? '.' f.data = some 0 := by
    rw [hdata, rfind?, rfind?_eq_none '.' rest hnd]
    simp
  rw [splitext]
  simp only [hdot]
  rcases hsl : rfind? '/' f.data with _ | s
  · simp [hsl]
  · simp [hsl]

/-! ### Claims -/

/-- C1: when a per-entry move fails, the entry is reported and stays in the
base directory, no count is incremented for it, the loop continues so that
the summary (per category and in total) counts exactly the successfully
moved entries, and `main` still exits with status 0. -/
theorem organize_partial_failure (env : Env) (p : String)
    (hargs : env.argc = 2)
    (hval : validate_path env.abspath env.info env.target = ValidateResult.ok p) :
    (∀ e ∈ env.entries, e.isDir = false → is_hidden_or_system e.name = false →
      env.moveFails e.name = true →
      e ∈ (organize_files env.moveFails env.folders env.entries).remaining ∧
      e.name ∈ (organize_files env.moveFails env.folders env.entries).reports) ∧
    (∀ c, (organize_files env.moveFails env.folders env.entries).summary c =
      env.entries.countP fun e => entryMoved env.moveFails e && (get_category e.name == c)) ∧
    summaryTotal (organize_files env.moveFails env.folders env.entries).summary =
      env.entries.countP (entryMoved env.moveFails) ∧
    (main env).1 = 0 := by
  refine ⟨?_, ?_, ?_, ?_⟩
  · intro e he hd hh hf
    exact mem_remaining_of_failed env.moveFails env.entries env.folders (fun _ => 0) e he hd hh hf
  · intro c
    rw [organize_files, runOrganize_summary_apply]
    exact Nat.zero_add _
  · rw [organize_files, runOrganize_total]
    have h0 : summaryTotal (fun _ => 0) = 0 := rfl
    rw [h0, Nat.zero_add]
  · simp [main, hargs, hval]

/-- C1 witness: one file whose move fails stays, is reported, counts for
nothing, and the run exits 0. -/
theorem organize_partial_failure_witness :
    (⟨"a.txt", false⟩ : Entry) ∈
      (organize_files (fun _ => true) (fun _ => []) [⟨"a.txt", false⟩]).remaining ∧
    "a.txt" ∈ (organize_files (fun _ => true) (fun _ => []) [⟨"a.txt", false⟩]).reports ∧
    summaryTotal (organize_files (fun _ => true) (fun _ => []) [⟨"a.txt", false⟩]).summary =
      List.countP (entryMoved fun _ => true) [⟨"a.txt", false⟩] ∧
    (main ⟨2, "d", fun s => s, fun _ => ⟨true, true, true⟩, fun _ => [],
      [⟨"a.txt", false⟩], fun _ => true⟩).1 = 0 := by
  have h := organize_partial_failure
    ⟨2, "d", fun s => s, fun _ => ⟨true, true, true⟩, fun _ => [],
      [⟨"a.txt", false⟩], fun _ => true⟩ "d" rfl (by decide)
  obtain ⟨h₁, _, h₃, h₄⟩ := h
  have he := h₁ ⟨"a.txt", false⟩ (by decide) rfl (by decide) rfl
  exact ⟨he.1, he.2, h₃, h₄⟩

/-- C2: summary total plus skipped hidden files plus failed moves equals the
number of non-directory entries in the base directory before the run. -/
theorem total_conservation (fails : String → Bool) (folders : String → List String)
    (base : List Entry) :
    summaryTotal (organize_files fails folders base).summary +
      base.countP entryHidden + base.countP (entryFailed fails) =
      base.countP (fun e => !e.isDir) := by
  rw [organize_files, runOrganize_total]
  have h0 : summaryTotal (fun _ => 0) = 0 := rfl
  rw [h0, Nat.zero_add, count_partition]

/-- C3: classification is total and always yields a member of the category
set. -/
theorem classify_total (filename : String) : get_category filename ∈ CATEGORIES :=
  get_category_mem filename

/-- C4: `resolve_duplicate` returns the direct path when the filename is
free, and otherwise the first free probe `stem_k.ext` with `k` counting up
from 1. -/
theorem resolve_duplicate_spec (contents : List String)
    (destination_folder filename : String) :
    (filename ∉ contents →
      resolve_duplicate contents destination_folder filename =
        joinPath destination_folder filename) ∧
    (filename ∈ contents →
      ∃ k, 1 ≤ k ∧
        resolve_duplicate contents destination_folder filename =
          joinPath destination_folder
            (candidate (splitext filename).1 (splitext filename).2 k) ∧
        candidate (splitext filename).1 (splitext filename).2 k ∉ contents ∧
        ∀ j, 1 ≤ j → j < k →
          candidate (splitext filename).1 (splitext filename).2 j ∈ contents) := by
  constructor
  · intro h
    rw [resolve_duplicate, resolve_name_not_mem contents filename h]
  · intro h
    obtain ⟨k, h₁, h₂, h₃, h₄⟩ := resolve_name_mem contents filename h
    exact ⟨k, h₁, by rw [resolve_duplicate, h₂], h₃, h₄⟩

/-- C4 witness: a free name passes through; a colliding name gets the first
free numbered probe. -/
theorem resolve_duplicate_spec_witness :
    resolve_duplicate [] "Images" "photo.jpg" = joinPath "Images" "photo.jpg" ∧
    (∃ k, 1 ≤ k ∧
      resolve_duplicate ["photo.jpg"] "Images" "photo.jpg" =
        joinPath "Images"
          (candidate (splitext "photo.jpg").1 (splitext "photo.jpg").2 k) ∧
      candidate (splitext "photo.jpg").1 (splitext "photo.jpg").2 k ∉ ["photo.jpg"] ∧
      ∀ j, 1 ≤ j → j < k →
        candidate (splitext "photo.jpg").1 (splitext "photo.jpg").2 j ∈ ["photo.jpg"]) :=
  ⟨(resolve_duplicate_spec [] "Images" "photo.jpg").1 (by decide),
   (resolve_duplicate_spec ["photo.jpg"] "Images" "photo.jpg").2 (by decide)⟩

/-- C5: with no move failures, a second run over what the first run left
behind moves nothing: its summary is identically zero and the reporter
prints the "already clean" notice. -/
theorem organize_idempotent (folders : String → List String) (base : List Entry)
    (fails₂ : String → Bool) :
    (∀ c, (organize_files fails₂
        (organize_files (fun _ => false) folders base).folders
        (organize_files (fun _ => false) folders base).remaining).summary c = 0) ∧
    print_summary (organize_files fails₂
        (organize_files (fun _ => false) folders base).folders
        (organize_files (fun _ => false) folders base).remaining).summary =
      Report.alreadyClean := by
  have hskip : ∀ e ∈ (organize_files (fun _ => false) folders base).remaining,
      e.isDir = true ∨ is_hidden_or_system e.name = true :=
    remaining_all_skipped base folders (fun _ => 0)
  have hzero : (organize_files fails₂
      (organize_files (fun _ => false) folders base).folders
      (organize_files (fun _ => false) folders base).remaining).summary =
      (fun _ => 0) :=
    runOrganize_skip_all fails₂ _ _ _ hskip
  constructor
  · intro c
    rw [hzero]
  · have h0 : summaryTotal (organize_files fails₂
        (organize_files (fun _ => false) folders base).folders
        (organize_files (fun _ => false) folders base).remaining).summary = 0 := by
      rw [hzero]; rfl
    rw [print_summary, if_pos h0]

/-- C6 counterexample: on the dotfile `".py"` the substring-from-last-dot
reading classifies as `"Code"`, but `get_category` returns `"Others"`. -/
theorem get_category_claimed_counterexample :
    get_category_claimed ".py" = "Code" ∧ get_category ".py" = "Others" ∧
      ("Code" : String) ≠ "Others" := by decide

/-- C6 (amended): `get_category` extracts the substring from the last dot
as the extension only when a non-dot character precedes that dot; for names
whose characters before the last dot are all dots (dotfiles) or with no dot
at all, the extension is empty and the fallback `"Others"` applies; the
lookup is case-insensitive. -/
theorem get_category_extraction (f : String) (hsep : '/' ∉ f.data) :
    get_category f = get_category_described f := by
  have hs : rfind? '/' f.data = none := rfind?_eq_none '/' f.data hsep
  rcases hdot : rfind? '.' f.data with _ | d
  · rw [get_category, splitext_no_dot f hdot]
    simp only [get_category_described, hdot]
    rfl
  · rw [get_category, splitext_some f d hdot hs]
    simp only [get_category_described, hdot]
    by_cases hany : ((f.data.take d).any fun c => c != '.') = true
    · rw [if_pos hany, if_pos hany]
    · rw [if_neg hany, if_neg hany]
      rfl

/-- C6 witness: an ordinary upper-case extension goes through the amended
extraction unchanged. -/
theorem get_category_extraction_witness :
    get_category "photo.JPG" = get_category_described "photo.JPG" :=
  get_category_extraction "photo.JPG" (by decide)

/-- C7: an entry whose name starts with a dot is never moved out of the
base directory and contributes nothing to any category count. -/
theorem hidden_excluded (fails : String → Bool) (folders : String → List String)
    (base : List Entry) :
    (∀ e ∈ base, is_hidden_or_system e.name = true →
      e ∈ (organize_files fails folders base).remaining) ∧
    ∀ c, (organize_files fails folders base).summary c =
      (organize_files fails folders
        (base.filter fun e => !is_hidden_or_system e.name)).summary c := by
  constructor
  · intro e he hh
    exact mem_remaining_of_hidden fails base folders (fun _ => 0) e he hh
  · intro c
    rw [organize_files, organize_files, runOrganize_filter_hidden]

/-- C7 witness: `.DS_Store` stays in place, and the summary equals the one
computed with hidden entries removed from the listing. -/
theorem hidden_excluded_witness :
    (⟨".DS_Store", false⟩ : Entry) ∈
      (organize_files (fun _ => false) (fun _ => [])
        [⟨".DS_Store", false⟩, ⟨"a.txt", false⟩]).remaining ∧
    (organize_files (fun _ => false) (fun _ => [])
        [⟨".DS_Store", false⟩, ⟨"a.txt", false⟩]).summary "Documents" =
      (organize_files (fun _ => false) (fun _ => [])
        ([⟨".DS_Store", false⟩, ⟨"a.txt", false⟩].filter
          fun e => !is_hidden_or_system e.name)).summary "Documents" :=
  ⟨(hidden_excluded (fun _ => false) (fun _ => [])
      [⟨".DS_Store", false⟩, ⟨"a.txt", false⟩]).1 ⟨".DS_Store", false⟩ (by decide) (by decide),
   (hidden_excluded (fun _ => false) (fun _ => [])
      [⟨".DS_Store", false⟩, ⟨"a.txt", false⟩]).2 "Documents"⟩

/-- C8: `validate_path` reports the missing path, the non-directory, and
the missing permission in that order, and on success returns the resolved
absolute path. -/
theorem validate_path_spec (abspath : String → String) (info : String → PathInfo)
    (path : String) :
    ((info (abspath path)).present = false →
      validate_path abspath info path = ValidateResult.notFound) ∧
    ((info (abspath path)).present = true → (info (abspath path)).isDir = false →
      validate_path abspath info path = ValidateResult.notADirectory) ∧
    ((info (abspath path)).present = true → (info (abspath path)).isDir = true →
      (info (abspath path)).readWrite = false →
      validate_path abspath info path = ValidateResult.insufficientPermissions) ∧
    ((info (abspath path)).present = true → (info (abspath path)).isDir = true →
      (info (abspath path)).readWrite = true →
      validate_path abspath info path = ValidateResult.ok (abspath path)) := by
  refine ⟨fun h₁ => ?_, fun h₁ h₂ => ?_, fun h₁ h₂ h₃ => ?_, fun h₁ h₂ h₃ => ?_⟩ <;>
    simp [validate_path, h₁, *]

/-- C8 witness: all four outcomes at concrete host states. -/
theorem validate_path_spec_witness :
    validate_path (fun s => s) (fun _ => ⟨false, false, false⟩) "p" =
      ValidateResult.notFound ∧
    validate_path (fun s => s) (fun _ => ⟨true, false, false⟩) "p" =
      ValidateResult.notADirectory ∧
    validate_path (fun s => s) (fun _ => ⟨true, true, false⟩) "p" =
      ValidateResult.insufficientPermissions ∧
    validate_path (fun s => s) (fun _ => ⟨true, true, true⟩) "p" =
      ValidateResult.ok "p" :=
  ⟨(validate_path_spec (fun s => s) (fun _ => ⟨false, false, false⟩) "p").1 rfl,
   (validate_path_spec (fun s => s) (fun _ => ⟨true, false, false⟩) "p").2.1 rfl rfl,
   (validate_path_spec (fun s => s) (fun _ => ⟨true, true, false⟩) "p").2.2.1 rfl rfl rfl,
   (validate_path_spec (fun s => s) (fun _ => ⟨true, true, true⟩) "p").2.2.2 rfl rfl rfl⟩

/-- C9: the probe names are pairwise distinct, so among the first
`contents.length + 1` probes one is free: the probe loop terminates within
finitely many steps for every finite folder. -/
theorem resolve_duplicate_terminates (contents : List String) (name ext : String) :
    (∀ j k, j ≠ k → candidate name ext j ≠ candidate name ext k) ∧
    (∃ j, j < contents.length + 1 ∧ candidate name ext (1 + j) ∉ contents) := by
  constructor
  · intro j k hjk hc
    exact hjk (candidate_inj name ext j k hc)
  · exact exists_candidate_not_mem contents name ext

/-- C9 witness: distinct probes and a free probe for a one-entry folder. -/
theorem resolve_duplicate_terminates_witness :
    candidate "photo" ".jpg" 1 ≠ candidate "photo" ".jpg" 2 ∧
    (∃ j, j < 2 ∧ candidate "photo" ".jpg" (1 + j) ∉ ["photo.jpg"]) :=
  ⟨(resolve_duplicate_terminates ["photo.jpg"] "photo" ".jpg").1 1 2 (by decide),
   (resolve_duplicate_terminates ["photo.jpg"] "photo" ".jpg").2⟩

/-- C10: a filename that begins with a dot and has no further dot is
classified `"Others"`, because the extension splitter keeps a leading dot
in the stem. -/
theorem dotfile_others (f : String) (rest : List Char)
    (hdata : f.data = '.' :: rest) (hnd : '.' ∉ rest) :
    get_category f = "Others" := by
  rw [get_category, splitext_dotfile f rest hdata hnd]
  rfl

/-- C10 witness: `".py"` is classified `"Others"` although `.py` is a key of
the extension table. -/
theorem dotfile_others_witness : get_category ".py" = "Others" :=
  dotfile_others ".py" ['p', 'y'] (by decide) (by decide)

end Organizer
